import Mathlib

/-!
Verification of the in-memory workspace model, terminal simulator and
code-analysis scoring of the AI-IDE repository.

The embedding is shallow: the React state triples of `src/src/App.tsx`
become an explicit `AppState` record and the three handlers become pure
state-transformers; the terminal component of the repository becomes a
pure `executeCommand` over a `TermState`; the complexity computations of
the two AI-service files become `Nat`-valued functions.  JavaScript
string primitives (`split`, `trim`, `toLowerCase`, `startsWith`,
`substring`) are modelled by structurally recursive functions over the
character list of a `String`, matching the ECMAScript behaviour on the
ASCII inputs that occur here.  Entry ids and timestamps (`Date.now()`,
`new Date()`) are presentation metadata and are omitted from terminal
entries; the wall clock consumed by the `date` command is threaded in as
an explicit `now` argument.
-/

namespace AIIDE

/-- JavaScript `String.prototype.split` with a single-character
separator, on character lists: `split('.')` of `"a..b"` is
`["a","","b"]` and of `""` is `[""]`. -/
def splitCharsOn (sep : Char) : List Char → List (List Char)
  | [] => [[]]
  | c :: cs =>
    let rest := splitCharsOn sep cs
    if c = sep then
      [] :: rest
    else
      match rest with
      | [] => [[c]]
      | r :: rs => (c :: r) :: rs

/-- JavaScript `s.split(sep)` for a one-character separator. -/
def jsSplit (sep : Char) (s : String) : List String :=
  (splitCharsOn sep s.data).map (fun cs => String.mk cs)

/-- ASCII lower-casing of one character, as JavaScript `toLowerCase`
behaves on the ASCII command strings used by the terminal. -/
def jsCharLower (c : Char) : Char :=
  if 65 ≤ c.toNat ∧ c.toNat ≤ 90 then Char.ofNat (c.toNat + 32) else c

/-- JavaScript `s.toLowerCase()` restricted to ASCII case mapping. -/
def jsToLower (s : String) : String :=
  String.mk (s.data.map jsCharLower)

/-- Whitespace characters stripped by JavaScript `trim` that are
representable in the ASCII inputs of this development. -/
def isJsWhitespace (c : Char) : Bool :=
  c == ' ' || c == '\t' || c == '\n' || c == '\r' || c == '\x0b' || c == '\x0c'

/-- Drops the leading whitespace of a character list. -/
def dropLeadingWs : List Char → List Char
  | [] => []
  | c :: cs => if isJsWhitespace c then dropLeadingWs cs else c :: cs

/-- JavaScript `s.trim()`: strips whitespace from both ends. -/
def jsTrim (s : String) : String :=
  String.mk ((dropLeadingWs ((dropLeadingWs s.data).reverse)).reverse)

/-- JavaScript `s.startsWith(pre)`. -/
def jsStartsWith (s pre : String) : Bool :=
  pre.data.isPrefixOf s.data

/-- JavaScript `s.substring(n)`: the suffix of `s` from index `n`. -/
def jsSubstringFrom (s : String) (n : Nat) : String :=
  String.mk (s.data.drop n)

/-!
Workspace model, from `src/src/App.tsx`.  The three `useState` cells
`activeFile`, `openFiles` and `fileContents` form the state; the record
mapping file paths to text is kept as an association list in object
insertion order, as a JavaScript object preserves it.
-/

/-- Workspace state of `App` (`src/src/App.tsx` lines 10-12). -/
structure AppState where
  activeFile : Option String
  openFiles : List String
  fileContents : List (String × String)
  deriving DecidableEq

/-- Key set of the content mapping, in insertion order. -/
def keysOf (m : List (String × String)) : List String :=
  m.map Prod.fst

/-- Replaces the value stored under key `k` wherever it occurs, keeping
every other binding in place. -/
def replaceValue : List (String × String) → String → String → List (String × String)
  | [], _, _ => []
  | (a, b) :: tl, k, v =>
    if a == k then (k, v) :: replaceValue tl k v else (a, b) :: replaceValue tl k v

/-- JavaScript object update `\x7b...prev, [k]: v\x7d`: replaces the value
at an existing key in place, otherwise appends the new key at the end. -/
def setKey (m : List (String × String)) (k v : String) : List (String × String) :=
  if (m.lookup k).isSome then
    replaceValue m k v
  else
    m ++ [(k, v)]

/-- Truthiness test `!fileContents[filePath]` of App.tsx line 91: a
missing entry and an empty-string entry are both falsy. -/
def isFalsy : Option String → Bool
  | none => true
  | some s => s == ""

/-- Seed content of `src/main.js` (App.tsx lines 13-24). -/
def mainJsSeed : String :=
  "// Welcome to AI IDE\nconsole.log(\x27Hello, World!\x27);\n\nfunction fibonacci(n) \x7b\n  if (n <= 1) return n;\n  return fibonacci(n - 1) + fibonacci(n - 2);\n\x7d\n\n// Generate first 10 fibonacci numbers\nfor (let i = 0; i < 10; i++) \x7b\n  console.log(\x60fibonacci(\x24\x7bi\x7d) = \x24\x7bfibonacci(i)\x7d\x60);\n\x7d"

/-- Seed content of `README.md` (App.tsx lines 25-42). -/
def readmeSeed : String :=
  "# My Project\n\nWelcome to your new project! This AI IDE provides:\n\n- 🚀 Intelligent code completion\n- 🤖 AI-powered coding assistant\n- 📁 File management\n- 💻 Integrated terminal\n- 🎨 Syntax highlighting\n\n## Getting Started\n\n1. Edit your code in the editor\n2. Ask the AI assistant for help\n3. Use the terminal for commands\n4. Save and run your project\n\nHappy coding!"

/-- Seed content of `package.json` (App.tsx lines 43-56). -/
def packageJsonSeed : String :=
  "\x7b\n  \"name\": \"ai-ide-project\",\n  \"version\": \"1.0.0\",\n  \"description\": \"A project created with AI IDE\",\n  \"main\": \"src/main.js\",\n  \"scripts\": \x7b\n    \"start\": \"node src/main.js\",\n    \"dev\": \"nodemon src/main.js\"\n  \x7d,\n  \"dependencies\": \x7b\x7d,\n  \"devDependencies\": \x7b\n    \"nodemon\": \"^3.0.0\"\n  \x7d\n\x7d"

/-- Initial workspace state: `src/main.js` open and active, three seeded
documents (App.tsx lines 10-57). -/
def initState : AppState :=
  { activeFile := some "src/main.js"
    openFiles := ["src/main.js"]
    fileContents :=
      [("src/main.js", mainJsSeed), ("README.md", readmeSeed), ("package.json", packageJsonSeed)] }

/-- Boilerplate produced for the `html` extension (App.tsx line 103). -/
def htmlSkeleton : String :=
  "<!DOCTYPE html>\n<html>\n<head>\n  <title>Document</title>\n</head>\n<body>\n  \n</body>\n</html>"

/-- The extension of a path as App.tsx computes it:
`filePath.split(\x27.\x27).pop()` (line 93); `split` never yields an empty
array, so `pop` is the last element. -/
def jsExtension (p : String) : String :=
  (jsSplit '.' p).getLastD ""

/-- Default content synthesized for a freshly selected path, by the
switch on the extension (App.tsx lines 92-110). -/
def defaultContent (p : String) : String :=
  if jsExtension p = "js" then "// " ++ p ++ "\n\n"
  else if jsExtension p = "py" then "# " ++ p ++ "\n\n"
  else if jsExtension p = "html" then htmlSkeleton
  else if jsExtension p = "css" then "/* " ++ p ++ " */\n\n"
  else "// " ++ p ++ "\n\n"

/-- `handleFileSelect` (App.tsx lines 84-117): activates the path,
appends it to the open list when absent, and synthesizes default content
when the stored entry is falsy (missing or empty). -/
def handleFileSelect (s : AppState) (p : String) : AppState :=
  { activeFile := some p
    openFiles := if p ∈ s.openFiles then s.openFiles else s.openFiles ++ [p]
    fileContents :=
      if isFalsy (s.fileContents.lookup p) then
        setKey s.fileContents p (defaultContent p)
      else
        s.fileContents }

/-- `handleFileClose` (App.tsx lines 119-126): filters the path out of
the open list; when it was active, the new active path is the last
remaining open path, or `none` when none remain. -/
def handleFileClose (s : AppState) (p : String) : AppState :=
  { activeFile :=
      if s.activeFile = some p then (s.openFiles.filter (fun f => f != p)).getLast?
      else s.activeFile
    openFiles := s.openFiles.filter (fun f => f != p)
    fileContents := s.fileContents }

/-- `handleCodeChange` (App.tsx lines 128-135): stores the new text
under the active path; `if (activeFile)` drops the edit when the active
path is `null` (or the falsy empty string). -/
def handleCodeChange (s : AppState) (value : String) : AppState :=
  match s.activeFile with
  | none => s
  | some p =>
    if p = "" then s
    else { s with fileContents := setKey s.fileContents p value }

/-- Direct activation `setActiveFile` handed to the editor tab strip
(App.tsx lines 10 and 217): reassigns the active path only. -/
def setActiveFile (s : AppState) (p : String) : AppState :=
  { s with activeFile := some p }

/-- States reachable from the seeded initial state by the workspace
operations; `setActiveFile` is invoked by the tab strip only with an
already-open path, so that argument is constrained to `openFiles`. -/
inductive Reachable : AppState → Prop where
  | init : Reachable initState
  | select (s : AppState) (p : String) : Reachable s → Reachable (handleFileSelect s p)
  | close (s : AppState) (p : String) : Reachable s → Reachable (handleFileClose s p)
  | update (s : AppState) (v : String) : Reachable s → Reachable (handleCodeChange s v)
  | setActive (s : AppState) (p : String) :
      Reachable s → p ∈ s.openFiles → Reachable (setActiveFile s p)

/-!
Terminal simulator, from the terminal component of the repository
(`src/unnamed/part_000`).
-/

/-- Classification of a terminal log entry (part_000 line 6). -/
inductive EntryKind where
  | input
  | output
  | error
  deriving DecidableEq

/-- One terminal log entry; ids and timestamps are omitted. -/
structure TermEntry where
  kind : EntryKind
  content : String
  deriving DecidableEq

/-- Terminal component state: the output log, the command-history
buffer, and the history cursor (part_000 lines 12-28). -/
structure TermState where
  output : List TermEntry
  history : List String
  historyIndex : Int
  deriving DecidableEq

/-- Response of the `help` command (part_000 lines 58-68). -/
def helpText : String :=
  "Available commands:\n  help          - Show this help message\n  clear         - Clear terminal output\n  ls            - List files and directories\n  pwd           - Print working directory\n  date          - Show current date and time\n  whoami        - Display current user\n  echo [text]   - Display text\n  node --version - Show Node.js version\n  npm --version  - Show npm version\n  git --version  - Show Git version"

/-- Response of the `ls` command (part_000 lines 81-89). -/
def lsText : String :=
  "src/\n  main.js\n  utils.js\n  components/\n    App.js\n    Header.js\nREADME.md\npackage.json\n.gitignore"

/-- Initial terminal state with its two welcome lines (part_000 lines
12-28). -/
def initTermState : TermState :=
  { output :=
      [{ kind := EntryKind.output, content := "Welcome to AI IDE Terminal v1.0.0" },
       { kind := EntryKind.output, content := "Type \"help\" for available commands." }]
    history := []
    historyIndex := -1 }

/-- `executeCommand` (part_000 lines 36-169): dispatches on the trimmed,
lower-cased command.  The raw command always enters the history and the
cursor resets; `clear` empties the log and returns early; every other
command appends the echoed input line plus one response.  `echo` is
prefix-matched on the normalized command but slices the RAW input with
`command.substring(5)`.  `now` stands for `new Date().toString()`. -/
def executeCommand (now : String) (s : TermState) (command : String) : TermState :=
  let cmd := jsToLower (jsTrim command)
  let history := s.history ++ [command]
  if cmd = "clear" then
    { output := [], history := history, historyIndex := -1 }
  else
    let inputEntry : TermEntry := { kind := EntryKind.input, content := "$ " ++ command }
    let response : TermEntry :=
      if cmd = "help" then { kind := EntryKind.output, content := helpText }
      else if cmd = "ls" then { kind := EntryKind.output, content := lsText }
      else if cmd = "pwd" then { kind := EntryKind.output, content := "/home/project" }
      else if cmd = "date" then { kind := EntryKind.output, content := now }
      else if cmd = "whoami" then { kind := EntryKind.output, content := "developer" }
      else if cmd = "node --version" then { kind := EntryKind.output, content := "v18.17.0" }
      else if cmd = "npm --version" then { kind := EntryKind.output, content := "9.6.7" }
      else if cmd = "git --version" then { kind := EntryKind.output, content := "git version 2.41.0" }
      else if jsStartsWith cmd "echo " then
        { kind := EntryKind.output, content := jsSubstringFrom command 5 }
      else
        { kind := EntryKind.error,
          content := "Command not found: " ++ command ++ ". Type \x27help\x27 for available commands." }
    { output := s.output ++ [inputEntry, response], history := history, historyIndex := -1 }

/-!
Complexity scoring of the two AI-service files.
-/

/-- Complexity of `AIService.analyzeCode` in the mock service
(`src/unnamed/part_001` lines 48-49):
`Math.min(10, Math.max(1, Math.floor(lines / 10) + Math.floor(Math.random() * 3)))`,
with the random summand `Math.floor(Math.random() * 3)` passed in as
`r` (its possible outcomes are `0`, `1` and `2`). -/
def analyzeComplexity (code : String) (r : Nat) : Nat :=
  min 10 (max 1 ((jsSplit '\n' code).length / 10 + r))

/-- `calculateCyclomaticComplexity` of the advanced service
(`src/unnamed/part_002` lines 246-259): starts at base complexity `1`,
adds the number of regex matches of each complexity keyword, and caps
the sum with `Math.min(complexity, 10)`.  The per-keyword match counts
enter as the parameter `matchCounts`, so the bound below holds for every
possible outcome of the regex matching. -/
def calculateCyclomaticComplexity (matchCounts : List Nat) : Nat :=
  min (1 + matchCounts.sum) 10

/-!
Lemmas about the association-list content mapping.
-/

/-- Membership in the key set coincides with a successful lookup. -/
theorem lookup_isSome_iff (m : List (String × String)) (k : String) :
    (m.lookup k).isSome = true ↔ k ∈ keysOf m := by
  induction m with
  | nil => simp [keysOf]
  | cons hd tl ih =>
    obtain ⟨a, b⟩ := hd
    by_cases h : k = a
    · subst h
      simp [List.lookup, keysOf]
    · have hb : (k == a) = false := beq_eq_false_iff_ne.mpr h
      simp [List.lookup, keysOf, hb, h, ih]

/-- A replaced-in-place entry is found by lookup. -/
theorem lookup_replaceValue_self (m : List (String × String)) (k v : String)
    (h : (m.lookup k).isSome = true) :
    (replaceValue m k v).lookup k = some v := by
  induction m with
  | nil => simp at h
  | cons hd tl ih =>
    obtain ⟨a, b⟩ := hd
    by_cases hak : a = k
    · subst hak
      simp [replaceValue, List.lookup]
    · have hb : (k == a) = false := beq_eq_false_iff_ne.mpr (fun he => hak he.symm)
      have hb2 : (a == k) = false := beq_eq_false_iff_ne.mpr hak
      simp only [List.lookup, hb] at h
      simp only [replaceValue, hb2, Bool.false_eq_true, if_false, List.lookup, hb]
      exact ih h

/-- An appended entry is found by lookup when the key was absent. -/
theorem lookup_append_single (m : List (String × String)) (k v : String)
    (h : m.lookup k = none) :
    (m ++ [(k, v)]).lookup k = some v := by
  induction m with
  | nil => simp [List.lookup]
  | cons hd tl ih =>
    obtain ⟨a, b⟩ := hd
    by_cases hak : k = a
    · subst hak
      simp [List.lookup] at h
    · have hb : (k == a) = false := beq_eq_false_iff_ne.mpr hak
      simp only [List.lookup, hb] at h
      simp [List.lookup, hb, ih h]

/-- Replacing the value at key `k` leaves the entry of every other key
untouched. -/
theorem lookup_replaceValue_ne (m : List (String × String)) (k v q : String)
    (hq : q ≠ k) : (replaceValue m k v).lookup q = m.lookup q := by
  induction m with
  | nil => rfl
  | cons hd tl ih =>
    obtain ⟨a, b⟩ := hd
    by_cases hak : a = k
    · subst hak
      have hb : (q == a) = false := beq_eq_false_iff_ne.mpr hq
      simp [replaceValue, List.lookup, hb, ih]
    · have hb2 : (a == k) = false := beq_eq_false_iff_ne.mpr hak
      by_cases hqa : q = a
      · subst hqa
        simp [replaceValue, hb2, List.lookup]
      · have hb3 : (q == a) = false := beq_eq_false_iff_ne.mpr hqa
        simp [replaceValue, hb2, List.lookup, hb3, ih]

/-- Appending a binding for key `k` leaves the lookup of every other key
untouched. -/
theorem lookup_append_single_ne (m : List (String × String)) (k v q : String)
    (hq : q ≠ k) : (m ++ [(k, v)]).lookup q = m.lookup q := by
  induction m with
  | nil => simp [List.lookup, beq_eq_false_iff_ne.mpr hq]
  | cons hd tl ih =>
    obtain ⟨a, b⟩ := hd
    by_cases hqa : q = a
    · subst hqa
      simp [List.lookup]
    · have hb : (q == a) = false := beq_eq_false_iff_ne.mpr hqa
      simp [List.lookup, hb, ih]

/-- The JavaScript object update changes no entry other than its own
key. -/
theorem lookup_setKey_ne (m : List (String × String)) (k v q : String)
    (hq : q ≠ k) : (setKey m k v).lookup q = m.lookup q := by
  unfold setKey
  split
  · exact lookup_replaceValue_ne m k v q hq
  · exact lookup_append_single_ne m k v q hq

/-- The JavaScript object update stores the new value at its key. -/
theorem lookup_setKey_self (m : List (String × String)) (k v : String) :
    (setKey m k v).lookup k = some v := by
  unfold setKey
  by_cases h : (m.lookup k).isSome = true
  · simp only [h, if_true]
    exact lookup_replaceValue_self m k v h
  · have hn : m.lookup k = none := Option.not_isSome_iff_eq_none.mp (by simpa using h)
    simp only [h, if_false]
    exact lookup_append_single m k v hn

/-- Replacing a value in place leaves the key list unchanged. -/
theorem keysOf_replaceValue (m : List (String × String)) (k v : String) :
    keysOf (replaceValue m k v) = keysOf m := by
  induction m with
  | nil => rfl
  | cons hd tl ih =>
    obtain ⟨a, b⟩ := hd
    by_cases hak : a = k
    · subst hak
      simp [replaceValue, keysOf] at ih ⊢
      exact ih
    · have hb2 : (a == k) = false := beq_eq_false_iff_ne.mpr hak
      simp [replaceValue, hb2, keysOf] at ih ⊢
      exact ih

/-- Updating an existing key leaves the key list unchanged. -/
theorem keysOf_setKey_of_isSome (m : List (String × String)) (k v : String)
    (h : (m.lookup k).isSome = true) :
    keysOf (setKey m k v) = keysOf m := by
  unfold setKey
  simp only [h, if_true]
  exact keysOf_replaceValue m k v

/-- Updating an absent key appends it to the key list. -/
theorem keysOf_setKey_of_none (m : List (String × String)) (k v : String)
    (h : m.lookup k = none) :
    keysOf (setKey m k v) = keysOf m ++ [k] := by
  unfold setKey keysOf
  simp [h]

/-- The object update never removes a key. -/
theorem mem_keysOf_setKey (m : List (String × String)) (k v q : String)
    (hq : q ∈ keysOf m) : q ∈ keysOf (setKey m k v) := by
  cases h : m.lookup k with
  | some w =>
    rw [keysOf_setKey_of_isSome m k v (by simp [h])]
    exact hq
  | none =>
    rw [keysOf_setKey_of_none m k v h]
    exact List.mem_append_left _ hq

/-- The object update makes its own key present. -/
theorem self_mem_keysOf_setKey (m : List (String × String)) (k v : String) :
    k ∈ keysOf (setKey m k v) :=
  (lookup_isSome_iff _ _).mp (by simp [lookup_setKey_self])

/-- A non-falsy stored entry exists. -/
theorem isSome_of_isFalsy_eq_false (o : Option String) (h : isFalsy o = false) :
    o.isSome = true := by
  cases o with
  | none => simp [isFalsy] at h
  | some s => rfl

/-- A list has no last element exactly when it is empty. -/
theorem getLast?_eq_none_iff_nil (l : List String) : l.getLast? = none ↔ l = [] :=
  List.getLast?_eq_none_iff

/-- The last element of a list, when it exists, is an element. -/
theorem mem_of_getLast?_eq_some (l : List String) (a : String)
    (h : l.getLast? = some a) : a ∈ l := by
  obtain ⟨hne, heq⟩ := List.mem_getLast?_eq_getLast (Option.mem_def.mpr h)
  rw [heq]
  exact List.getLast_mem hne

/-!
The workspace invariant: every open path, and the active path when one
is set, names an entry of the content mapping.
-/

/-- Invariant preserved by all workspace operations. -/
def WorkspaceInv (s : AppState) : Prop :=
  (∀ q ∈ s.openFiles, q ∈ keysOf s.fileContents) ∧
  (∀ a, s.activeFile = some a → a ∈ keysOf s.fileContents)

/-- The seeded initial state satisfies the invariant. -/
theorem inv_init : WorkspaceInv initState := by
  constructor
  · intro q hq
    simp only [initState] at hq
    simp only [List.mem_singleton] at hq
    subst hq
    simp [initState, keysOf]
  · intro a ha
    have h2 : "src/main.js" = a := Option.some.inj ha
    subst h2
    simp [initState, keysOf]

/-- `handleFileSelect` preserves the invariant. -/
theorem inv_select (s : AppState) (p : String) (h : WorkspaceInv s) :
    WorkspaceInv (handleFileSelect s p) := by
  obtain ⟨ho, ha⟩ := h
  have hkeys : ∀ r, r ∈ keysOf s.fileContents →
      r ∈ keysOf (handleFileSelect s p).fileContents := by
    intro r hr
    simp only [handleFileSelect]
    split
    · exact mem_keysOf_setKey _ _ _ _ hr
    · exact hr
  have hpk : p ∈ keysOf (handleFileSelect s p).fileContents := by
    simp only [handleFileSelect]
    split
    · exact self_mem_keysOf_setKey _ _ _
    · next hfal =>
      exact (lookup_isSome_iff _ _).mp
        (isSome_of_isFalsy_eq_false _ (Bool.not_eq_true _ ▸ hfal))
  constructor
  · intro q hq
    by_cases hmem : p ∈ s.openFiles
    · simp only [handleFileSelect, if_pos hmem] at hq
      exact hkeys q (ho q hq)
    · simp only [handleFileSelect, if_neg hmem] at hq
      rcases List.mem_append.mp hq with hq | hq
      · exact hkeys q (ho q hq)
      · rw [List.mem_singleton] at hq
        subst hq
        exact hpk
  · intro a haeq
    have h2 : p = a := Option.some.inj haeq
    subst h2
    exact hpk

/-- `handleFileClose` preserves the invariant. -/
theorem inv_close (s : AppState) (p : String) (h : WorkspaceInv s) :
    WorkspaceInv (handleFileClose s p) := by
  obtain ⟨ho, ha⟩ := h
  constructor
  · intro q hq
    exact ho q (List.mem_of_mem_filter hq)
  · intro a haeq
    simp only [handleFileClose] at haeq
    by_cases hact : s.activeFile = some p
    · rw [if_pos hact] at haeq
      exact ho a (List.mem_of_mem_filter (mem_of_getLast?_eq_some _ _ haeq))
    · rw [if_neg hact] at haeq
      exact ha a haeq

/-- `handleCodeChange` preserves the invariant. -/
theorem inv_update (s : AppState) (v : String) (h : WorkspaceInv s) :
    WorkspaceInv (handleCodeChange s v) := by
  obtain ⟨ho, ha⟩ := h
  cases hact : s.activeFile with
  | none => simpa [handleCodeChange, hact] using ⟨ho, ha⟩
  | some p =>
    by_cases hp : p = ""
    · simpa [handleCodeChange, hact, hp] using ⟨ho, ha⟩
    · simp only [handleCodeChange, hact, if_neg hp]
      constructor
      · intro q hq
        exact mem_keysOf_setKey _ _ _ _ (ho q hq)
      · intro a haeq
        have h2 : p = a := Option.some.inj haeq
        subst h2
        exact mem_keysOf_setKey _ _ _ _ (ha p hact)

/-- `setActiveFile` with an open path preserves the invariant. -/
theorem inv_setActive (s : AppState) (p : String) (h : WorkspaceInv s)
    (hp : p ∈ s.openFiles) : WorkspaceInv (setActiveFile s p) := by
  obtain ⟨ho, _⟩ := h
  constructor
  · intro q hq
    exact ho q hq
  · intro a haeq
    have h2 : p = a := Option.some.inj haeq
    subst h2
    exact ho p hp

/-- Every reachable workspace state satisfies the invariant. -/
theorem reachable_inv (s : AppState) (h : Reachable s) : WorkspaceInv s := by
  induction h with
  | init => exact inv_init
  | select s p _ ih => exact inv_select s p ih
  | close s p _ ih => exact inv_close s p ih
  | update s v _ ih => exact inv_update s v ih
  | setActive s p _ hp ih => exact inv_setActive s p ih hp

/-- A path sandwiched between a non-empty head and a tail is never the
empty string. -/
theorem append_sandwich_ne_empty (a q b : String) (ha : 0 < a.length) :
    a ++ q ++ b ≠ "" := by
  intro hc
  have hle := congrArg String.length hc
  rw [String.length_append, String.length_append] at hle
  have h0 : String.length "" = 0 := rfl
  rw [h0] at hle
  omega

/-- Every synthesized default template is a non-empty string. -/
theorem defaultContent_ne_empty (p : String) : defaultContent p ≠ "" := by
  unfold defaultContent
  split
  · exact append_sandwich_ne_empty _ _ _ (by decide)
  · split
    · exact append_sandwich_ne_empty _ _ _ (by decide)
    · split
      · decide
      · split
        · exact append_sandwich_ne_empty _ _ _ (by decide)
        · exact append_sandwich_ne_empty _ _ _ (by decide)

/-!
The claims.
-/

/-- C1: closing the currently active path reassigns the active path to
the last element of the open-paths sequence with that path removed, and
the new active path is `none` exactly when that remaining sequence is
empty. -/
theorem closing_active_reassigns_last (s : AppState) (p : String)
    (h : s.activeFile = some p) :
    (handleFileClose s p).openFiles = s.openFiles.filter (fun f => f != p) ∧
    (handleFileClose s p).activeFile = (s.openFiles.filter (fun f => f != p)).getLast? ∧
    ((handleFileClose s p).activeFile = none ↔
      s.openFiles.filter (fun f => f != p) = []) := by
  refine ⟨rfl, ?_, ?_⟩
  · simp [handleFileClose, h]
  · simp [handleFileClose, h, getLast?_eq_none_iff_nil]

/-- Witness for C1 at the initial state: closing the single open active
path leaves no open path and a `none` active path. -/
theorem closing_active_reassigns_last_witness :
    initState.activeFile = some "src/main.js" ∧
    ((handleFileClose initState "src/main.js").activeFile = none ↔
      initState.openFiles.filter (fun f => f != "src/main.js") = []) :=
  ⟨rfl, (closing_active_reassigns_last initState "src/main.js" rfl).2.2⟩

/-- C2: in every state reachable from the seeded initial state by the
workspace operations (with tab activation restricted to open paths), a
non-null active path is a key of the content mapping. -/
theorem reachable_active_mem_contents (s : AppState) (h : Reachable s) (a : String)
    (ha : s.activeFile = some a) : a ∈ keysOf s.fileContents :=
  (reachable_inv s h).2 a ha

/-- Witness for C2 at the initial state itself. -/
theorem reachable_active_mem_contents_witness :
    Reachable initState ∧ initState.activeFile = some "src/main.js" ∧
    "src/main.js" ∈ keysOf initState.fileContents :=
  ⟨Reachable.init, rfl,
    reachable_active_mem_contents initState Reachable.init "src/main.js" rfl⟩

/-- C3: selecting a path with no content entry creates a non-empty
default entry whose shape is fixed by the path's extension: `js` and
`css` produce comment headers, `py` a `#`-comment header, `html` the
fixed boilerplate skeleton, and everything else the generic comment
header. -/
theorem select_fresh_path_synthesizes_default (s : AppState) (p : String)
    (h : s.fileContents.lookup p = none) :
    (handleFileSelect s p).fileContents.lookup p = some (defaultContent p) ∧
    defaultContent p ≠ "" ∧
    (jsExtension p = "js" → defaultContent p = "// " ++ p ++ "\n\n") ∧
    (jsExtension p = "py" → defaultContent p = "# " ++ p ++ "\n\n") ∧
    (jsExtension p = "html" → defaultContent p = htmlSkeleton) ∧
    (jsExtension p = "css" → defaultContent p = "/* " ++ p ++ " */\n\n") ∧
    (jsExtension p ≠ "js" → jsExtension p ≠ "py" → jsExtension p ≠ "html" →
      jsExtension p ≠ "css" → defaultContent p = "// " ++ p ++ "\n\n") := by
  refine ⟨?_, defaultContent_ne_empty p, ?_, ?_, ?_, ?_, ?_⟩
  · simp [handleFileSelect, h, isFalsy, lookup_setKey_self]
  · intro hx; simp [defaultContent, hx]
  · intro hx; simp [defaultContent, hx]
  · intro hx; simp [defaultContent, hx]
  · intro hx; simp [defaultContent, hx]
  · intro h1 h2 h3 h4; simp [defaultContent, h1, h2, h3, h4]

/-- Witness for C3: selecting the fresh path `b.py` synthesizes the
`#`-comment header. -/
theorem select_fresh_path_synthesizes_default_witness :
    initState.fileContents.lookup "b.py" = none ∧
    (handleFileSelect initState "b.py").fileContents.lookup "b.py" =
      some (defaultContent "b.py") ∧
    defaultContent "b.py" = "# b.py\n\n" := by
  have h : initState.fileContents.lookup "b.py" = none := by decide
  exact ⟨h, (select_fresh_path_synthesizes_default initState "b.py" h).1, by decide⟩

/-- C4: `handleFileClose` is idempotent on the open-paths sequence. -/
theorem closeFile_idempotent_on_openFiles (s : AppState) (p : String) :
    (handleFileClose (handleFileClose s p) p).openFiles =
      (handleFileClose s p).openFiles := by
  simp [handleFileClose, List.filter_filter]

/-- C5 counterexample: on a state whose active path is absent from the
content mapping, `handleCodeChange` grows the key set, so the claim as
stated over every workspace state fails. -/
theorem updateContent_keyset_counterexample :
    "ghost.js" ∈ keysOf
      (handleCodeChange (AppState.mk (some "ghost.js") ["ghost.js"] []) "x").fileContents ∧
    "ghost.js" ∉ keysOf (AppState.mk (some "ghost.js") ["ghost.js"] []).fileContents := by
  decide

/-- C5 amended: on every workspace state whose active path, when
non-null, is a key of the content mapping — which holds in every
reachable state — `handleCodeChange` leaves the key set unchanged, and
only the value stored at the update target (the active path) may
change: every other key keeps its stored value. -/
theorem updateContent_preserves_keyset (s : AppState) (v : String)
    (h : ∀ a, s.activeFile = some a → a ∈ keysOf s.fileContents) :
    keysOf (handleCodeChange s v).fileContents = keysOf s.fileContents ∧
    ∀ q, s.activeFile ≠ some q →
      (handleCodeChange s v).fileContents.lookup q = s.fileContents.lookup q := by
  constructor
  · cases hact : s.activeFile with
    | none => simp [handleCodeChange, hact]
    | some p =>
      by_cases hp : p = ""
      · simp [handleCodeChange, hact, hp]
      · simp only [handleCodeChange, hact, if_neg hp]
        exact keysOf_setKey_of_isSome _ _ _ ((lookup_isSome_iff _ _).mpr (h p hact))
  · intro q hq
    cases hact : s.activeFile with
    | none => simp [handleCodeChange, hact]
    | some p =>
      by_cases hp : p = ""
      · simp [handleCodeChange, hact, hp]
      · simp only [handleCodeChange, hact, if_neg hp]
        apply lookup_setKey_ne
        intro he
        exact hq (by rw [hact, he])

/-- Witness for the amended C5 at the initial state: the key set is
unchanged and the non-active `README.md` entry keeps its value. -/
theorem updateContent_preserves_keyset_witness :
    (∀ a, initState.activeFile = some a → a ∈ keysOf initState.fileContents) ∧
    initState.activeFile ≠ some "README.md" ∧
    keysOf (handleCodeChange initState "new text").fileContents =
      keysOf initState.fileContents ∧
    (handleCodeChange initState "new text").fileContents.lookup "README.md" =
      initState.fileContents.lookup "README.md" := by
  have h : ∀ a, initState.activeFile = some a → a ∈ keysOf initState.fileContents := by
    intro a ha
    have h2 : "src/main.js" = a := Option.some.inj ha
    subst h2
    decide
  have hne : initState.activeFile ≠ some "README.md" := by decide
  exact ⟨h, hne, (updateContent_preserves_keyset initState "new text" h).1,
    (updateContent_preserves_keyset initState "new text" h).2 "README.md" hne⟩

/-- C6: with no active path, an edit is dropped silently and the whole
workspace state is unchanged. -/
theorem no_active_path_drops_edit (s : AppState) (v : String)
    (h : s.activeFile = none) : handleCodeChange s v = s := by
  simp [handleCodeChange, h]

/-- Witness for C6 on the empty workspace state. -/
theorem no_active_path_drops_edit_witness :
    (AppState.mk none [] []).activeFile = none ∧
    handleCodeChange (AppState.mk none [] []) "edit" = AppState.mk none [] [] :=
  ⟨rfl, no_active_path_drops_edit _ "edit" rfl⟩

/-- C7 counterexample: the input `"  echo hi"` has a trimmed,
lower-cased form beginning with `echo `, but the appended output entry
holds `"o hi"` — `command.substring(5)` applied to the raw input — and
not the argument text `"hi"`. -/
theorem echo_claim_counterexample :
    jsStartsWith (jsToLower (jsTrim "  echo hi")) "echo " = true ∧
    (executeCommand "now" initTermState "  echo hi").output.getLast? =
      some { kind := EntryKind.output, content := "o hi" } ∧
    jsSubstringFrom (jsTrim "  echo hi") 5 = "hi" ∧
    ("o hi" : String) ≠ "hi" := by
  decide

/-- C7 amended: for every input line whose trimmed, lower-cased form
begins with `echo `, execution appends the echoed input line and an
output-classified entry holding the raw line with its first five
characters removed; when the line has no leading whitespace this is
exactly the argument text with its original casing. -/
theorem echo_appends_raw_drop5 (now : String) (s : TermState) (command : String)
    (h : jsStartsWith (jsToLower (jsTrim command)) "echo " = true) :
    (executeCommand now s command).output =
      s.output ++
        [{ kind := EntryKind.input, content := "$ " ++ command },
         { kind := EntryKind.output, content := jsSubstringFrom command 5 }] := by
  have hne : ∀ c : String, jsStartsWith c "echo " = true →
      c ≠ "clear" ∧ c ≠ "help" ∧ c ≠ "ls" ∧ c ≠ "pwd" ∧ c ≠ "date" ∧
      c ≠ "whoami" ∧ c ≠ "node --version" ∧ c ≠ "npm --version" ∧
      c ≠ "git --version" := by
    intro c hc
    refine ⟨?_, ?_, ?_, ?_, ?_, ?_, ?_, ?_, ?_⟩ <;>
      (intro he; rw [he] at hc; exact absurd hc (by decide))
  obtain ⟨h1, h2, h3, h4, h5, h6, h7, h8, h9⟩ := hne _ h
  simp [executeCommand, h1, h2, h3, h4, h5, h6, h7, h8, h9, h]

/-- Witness for the amended C7: `echo hello world` produces the output
`hello world`. -/
theorem echo_appends_raw_drop5_witness :
    jsStartsWith (jsToLower (jsTrim "echo hello world")) "echo " = true ∧
    (executeCommand "now" initTermState "echo hello world").output =
      initTermState.output ++
        [{ kind := EntryKind.input, content := "$ " ++ "echo hello world" },
         { kind := EntryKind.output, content := jsSubstringFrom "echo hello world" 5 }] ∧
    jsSubstringFrom "echo hello world" 5 = "hello world" := by
  have h : jsStartsWith (jsToLower (jsTrim "echo hello world")) "echo " = true := by decide
  exact ⟨h, echo_appends_raw_drop5 "now" initTermState "echo hello world" h, by decide⟩

/-- C8: executing `clear` empties the output log while the command is
appended to the input history and nothing is removed from it. -/
theorem clear_empties_log_keeps_history (now : String) (s : TermState) :
    (executeCommand now s "clear").output = [] ∧
    (executeCommand now s "clear").history = s.history ++ ["clear"] :=
  ⟨rfl, rfl⟩

/-- C9: the complexity score is an integer in `[1, 10]` in both service
implementations, for every code string, every outcome of the random
summand, and every outcome of the keyword regex matching. -/
theorem complexity_score_within_bounds (code : String) (r : Nat)
    (matchCounts : List Nat) (hr : r ≤ 2) :
    (1 ≤ analyzeComplexity code r ∧ analyzeComplexity code r ≤ 10) ∧
    (1 ≤ calculateCyclomaticComplexity matchCounts ∧
      calculateCyclomaticComplexity matchCounts ≤ 10) := by
  unfold analyzeComplexity calculateCyclomaticComplexity
  omega

/-- Witness for C9 on a one-line code string with random summand `0`. -/
theorem complexity_score_within_bounds_witness :
    0 ≤ 2 ∧
    ((1 ≤ analyzeComplexity "let x = 1" 0 ∧ analyzeComplexity "let x = 1" 0 ≤ 10) ∧
      (1 ≤ calculateCyclomaticComplexity [2, 3] ∧
        calculateCyclomaticComplexity [2, 3] ≤ 10)) :=
  ⟨by decide, complexity_score_within_bounds "let x = 1" 0 [2, 3] (by decide)⟩

/-- C10: selecting a path whose stored content is the empty string
overwrites the entry with the (non-empty) extension-based default
template, so empty content is not preserved. -/
theorem select_overwrites_empty_entry (s : AppState) (p : String)
    (h : s.fileContents.lookup p = some "") :
    (handleFileSelect s p).fileContents.lookup p = some (defaultContent p) ∧
    defaultContent p ≠ "" := by
  refine ⟨?_, defaultContent_ne_empty p⟩
  simp [handleFileSelect, h, isFalsy, lookup_setKey_self]

/-- Witness for C10: a previously edited-to-empty `a.js` entry is
overwritten with the `js` comment header on re-selection. -/
theorem select_overwrites_empty_entry_witness :
    (AppState.mk (some "a.js") ["a.js"] [("a.js", "")]).fileContents.lookup "a.js" =
      some "" ∧
    (handleFileSelect (AppState.mk (some "a.js") ["a.js"] [("a.js", "")])
        "a.js").fileContents.lookup "a.js" = some (defaultContent "a.js") ∧
    defaultContent "a.js" = "// a.js\n\n" := by
  have h : (AppState.mk (some "a.js") ["a.js"] [("a.js", "")]).fileContents.lookup "a.js" =
      some "" := by decide
  exact ⟨h, (select_overwrites_empty_entry _ "a.js" h).1, by decide⟩

end AIIDE
